import Mathlib

/-!
Verification of the PortfolioTracker position-maintenance and PnL engine.

The definitions below are a shallow embedding of `backend/app/crud.py`
(together with the data model of `backend/app/models.py` and the boundary
validation of `backend/app/schemas.py`).  Monetary amounts, quantities and
timestamps are modelled as exact rationals (`ℚ`): the Python source uses
floats, and the specification states all equalities "up to floating-point
tolerance", which the rational model realises exactly.  Timestamps are
measured in days, so `timedelta(days = d)` is subtraction of `d`.

The database session is modelled as an explicit `DB` state: a list of
transaction rows and a list of position rows keyed by `(user_id, asset_id)`.
-/

set_option maxRecDepth 16384

namespace PortfolioTracker

/-- models.py `TransactionType`: BUY or SELL. -/
inductive TransactionType where
  | buy
  | sell
deriving DecidableEq, Repr

/-- models.py `Transaction` row (the fields the engine reads or writes).
`total_amount = quantity * price + fee` is computed at creation
(crud.py line 94); `realized_pnl` defaults to 0 and is written by the
SELL branch of the position engine. `transaction_date` is in days. -/
structure Transaction where
  id : Nat
  user_id : Nat
  asset_id : Nat
  transaction_type : TransactionType
  quantity : ℚ
  price : ℚ
  fee : ℚ
  total_amount : ℚ
  realized_pnl : ℚ
  transaction_date : ℚ
deriving DecidableEq, Repr

/-- models.py `Position` row (per (user, asset) aggregate; the key lives in
the surrounding store). `current_price`, `current_value`,
`unrealized_pnl` and `unrealized_pnl_percentage` are externally fed and
default to 0. -/
structure Position where
  quantity : ℚ
  average_buy_price : ℚ
  total_invested : ℚ
  current_price : ℚ
  current_value : ℚ
  unrealized_pnl : ℚ
  unrealized_pnl_percentage : ℚ
deriving DecidableEq, Repr

/-- Boundary validation of schemas.py (TransactionBase: `quantity > 0`,
`price > 0`, `fee ≥ 0`) together with the creation-time equation
`total_amount = quantity * price + fee` of crud.py line 94. -/
def wellFormed (t : Transaction) : Prop :=
  0 < t.quantity ∧ 0 < t.price ∧ 0 ≤ t.fee ∧
    t.total_amount = t.quantity * t.price + t.fee

instance (t : Transaction) : Decidable (wellFormed t) :=
  inferInstanceAs (Decidable (_ ∧ _ ∧ _ ∧ _))

/-- The core of crud.py `update_position_after_transaction`
(lines 147-186), as a pure function from the current position (if any) and
the transaction being applied to the new position (if any, `none` meaning
the row is deleted or absent) and the possibly-updated transaction row
(the SELL branch writes `transaction.realized_pnl`). -/
def applyTx (position : Option Position) (t : Transaction) :
    Option Position × Transaction :=
  match t.transaction_type with
  | TransactionType.buy =>
    match position with
    | some p =>
      let new_quantity := p.quantity + t.quantity
      let new_invested := p.total_invested + t.total_amount
      (some { p with
                quantity := new_quantity
                total_invested := new_invested
                average_buy_price := new_invested / new_quantity }, t)
    | none =>
      (some { quantity := t.quantity
              average_buy_price := t.price
              total_invested := t.total_amount
              current_price := 0
              current_value := 0
              unrealized_pnl := 0
              unrealized_pnl_percentage := 0 }, t)
  | TransactionType.sell =>
    match position with
    | some p =>
      let realized := (t.price - p.average_buy_price) * t.quantity
      let t2 := { t with realized_pnl := realized }
      let new_quantity := p.quantity - t.quantity
      let new_invested := p.total_invested - p.average_buy_price * t.quantity
      if new_quantity ≤ 0 then
        (none, t2)
      else
        (some { p with
                  quantity := new_quantity
                  total_invested := new_invested }, t2)
    | none => (none, t)

/-- The position component of one `applyTx` step. -/
def posStep (position : Option Position) (t : Transaction) : Option Position :=
  (applyTx position t).1

/-- Applying a whole transaction sequence incrementally, starting from no
position (the position produced by repeated live `applyTx` calls). -/
def applySeq (txs : List Transaction) : Option Position :=
  txs.foldl posStep none

/-- Applying a whole transaction sequence, also collecting the updated
transaction rows (with the realized PnL written by SELL steps). -/
def applySeqFull (txs : List Transaction) : Option Position × List Transaction :=
  txs.foldl
    (fun acc t =>
      let r := applyTx acc.1 t
      (r.1, acc.2 ++ [r.2]))
    (none, [])

/-- Ordering of transactions used by `recalculate_position`
(crud.py line 206: `order_by(transaction_date)`). -/
def dateLe (a b : Transaction) : Prop :=
  a.transaction_date ≤ b.transaction_date

instance : DecidableRel dateLe := fun a b =>
  inferInstanceAs (Decidable (a.transaction_date ≤ b.transaction_date))

/-- Sorting a transaction list by ascending `transaction_date` (the stable
realisation of the SQL `ORDER BY transaction_date`). -/
def sortByDate (l : List Transaction) : List Transaction :=
  l.insertionSort dateLe

/-! ## The store

A `DB` holds the transaction rows and the position rows of the ledger
store; position rows are keyed by `(user_id, asset_id)`. -/

/-- The ledger store: transaction rows plus position rows keyed by
`(user_id, asset_id)`. -/
structure DB where
  transactions : List Transaction
  positions : List (Nat × Nat × Position)
deriving DecidableEq, Repr

/-- Row key test for the positions table. -/
def posKey (u a : Nat) (x : Nat × Nat × Position) : Bool :=
  decide (x.1 = u ∧ x.2.1 = a)

/-- crud.py `get_position_by_asset` (lines 134-145): first position row
matching the (user, asset) key. -/
def get_position_by_asset (db : DB) (u a : Nat) : Option Position :=
  (db.positions.find? (posKey u a)).map (fun x => x.2.2)

/-- Writing back the (user, asset) position row: the old row (if any) is
removed and the new value (if any) stored. -/
def setPositions (ps : List (Nat × Nat × Position)) (u a : Nat)
    (op : Option Position) : List (Nat × Nat × Position) :=
  ps.filter (fun x => !(posKey u a x)) ++
    (match op with
     | some p => [(u, a, p)]
     | none => [])

/-- crud.py `get_transaction` (lines 79-86): first transaction row matching
id and owner. -/
def get_transaction (db : DB) (transaction_id user_id : Nat) :
    Option Transaction :=
  db.transactions.find? (fun t => decide (t.id = transaction_id ∧ t.user_id = user_id))

/-- crud.py `update_position_after_transaction` (lines 147-186) at the store
level: reads the position row for the transaction's (user, asset), applies
the pure step, writes back the position row and the (possibly
realized-PnL-updated) transaction row. -/
def update_position_after_transaction (db : DB) (t : Transaction) : DB :=
  let position := get_position_by_asset db t.user_id t.asset_id
  let r := applyTx position t
  { transactions := db.transactions.map (fun t0 => if t0.id = t.id then r.2 else t0)
    positions := setPositions db.positions t.user_id t.asset_id r.1 }

/-- crud.py `create_transaction` (lines 88-116): computes
`total_amount = quantity * price + fee`, inserts the transaction row
(realized PnL defaulting to 0), then updates the position. -/
def create_transaction (db : DB) (user_id id asset_id : Nat)
    (transaction_type : TransactionType)
    (quantity price fee transaction_date : ℚ) : DB :=
  let total_amount := quantity * price + fee
  let t : Transaction :=
    { id := id
      user_id := user_id
      asset_id := asset_id
      transaction_type := transaction_type
      quantity := quantity
      price := price
      fee := fee
      total_amount := total_amount
      realized_pnl := 0
      transaction_date := transaction_date }
  let db1 : DB := { db with transactions := db.transactions ++ [t] }
  update_position_after_transaction db1 t

/-- crud.py `recalculate_position` (lines 188-211): deletes the existing
position row, then replays every transaction of the (user, asset) pair in
ascending `transaction_date` order through the apply step. -/
def recalculate_position (db : DB) (user_id asset_id : Nat) : DB :=
  let db1 : DB :=
    { db with positions := db.positions.filter (fun x => !(posKey user_id asset_id x)) }
  let txs := sortByDate (db1.transactions.filter
    (fun t => decide (t.user_id = user_id ∧ t.asset_id = asset_id)))
  txs.foldl update_position_after_transaction db1

/-- crud.py `delete_transaction` (lines 118-126): deletes the owned
transaction row if found and recalculates the position of its asset,
returning whether a deletion occurred. -/
def delete_transaction (db : DB) (transaction_id user_id : Nat) : Bool × DB :=
  match get_transaction db transaction_id user_id with
  | some t =>
    let db1 : DB :=
      { db with transactions := db.transactions.filter (fun t2 => !(decide (t2.id = t.id))) }
    (true, recalculate_position db1 user_id t.asset_id)
  | none => (false, db)

/-! ## The PnL aggregator -/

/-- schemas.py `PnLAnalytics` (the `period` label string is omitted). -/
structure PnLAnalytics where
  total_pnl : ℚ
  total_pnl_percentage : ℚ
  realized_pnl : ℚ
  unrealized_pnl : ℚ
deriving DecidableEq, Repr

/-- schemas.py `PortfolioSummary`. -/
structure PortfolioSummary where
  total_invested : ℚ
  current_value : ℚ
  total_pnl : ℚ
  total_pnl_percentage : ℚ
  total_positions : Nat
  total_transactions : Nat
  pnl_7d : PnLAnalytics
  pnl_30d : PnLAnalytics
  pnl_1y : PnLAnalytics
  pnl_all : PnLAnalytics
deriving DecidableEq, Repr

/-- The window of crud.py line 234: transactions whose `transaction_date`
is at least `now - days`. -/
def periodTransactions (transactions : List Transaction) (now days : ℚ) :
    List Transaction :=
  transactions.filter (fun t => decide (now - days ≤ t.transaction_date))

/-- Realized PnL summed over the SELL transactions of a list
(crud.py lines 224 and 235). -/
def sumRealized (transactions : List Transaction) : ℚ :=
  ((transactions.filter (fun t => decide (t.transaction_type = TransactionType.sell))).map
    Transaction.realized_pnl).sum

/-- Invested capital summed over the BUY transactions of a list
(crud.py line 237). -/
def sumInvestedBuys (transactions : List Transaction) : ℚ :=
  ((transactions.filter (fun t => decide (t.transaction_type = TransactionType.buy))).map
    Transaction.total_amount).sum

/-- crud.py `calculate_period_pnl` (lines 232-246), with the closure's
environment (`transactions`, `unrealized_pnl`, `now`) passed explicitly.
`timedelta(days = days)` is subtraction of `days` in day units. -/
def calculate_period_pnl (transactions : List Transaction)
    (unrealized_pnl now : ℚ) (days : ℚ) : PnLAnalytics :=
  let period_transactions := periodTransactions transactions now days
  let period_realized := sumRealized period_transactions
  let period_total := period_realized + unrealized_pnl
  let period_invested := sumInvestedBuys period_transactions
  let period_percentage :=
    if 0 < period_invested then period_total / period_invested * 100 else 0
  { total_pnl := period_total
    total_pnl_percentage := period_percentage
    realized_pnl := period_realized
    unrealized_pnl := unrealized_pnl }

/-- crud.py `get_portfolio_summary` (lines 214-265), as a function of the
user's position rows, transaction rows and the reference time `now`. -/
def get_portfolio_summary (positions : List Position)
    (transactions : List Transaction) (now : ℚ) : PortfolioSummary :=
  let total_invested := (positions.map Position.total_invested).sum
  let current_value := (positions.map Position.current_value).sum
  let unrealized_pnl := (positions.map Position.unrealized_pnl).sum
  let realized_pnl := sumRealized transactions
  let total_pnl := realized_pnl + unrealized_pnl
  let total_pnl_percentage :=
    if 0 < total_invested then total_pnl / total_invested * 100 else 0
  { total_invested := total_invested
    current_value := current_value
    total_pnl := total_pnl
    total_pnl_percentage := total_pnl_percentage
    total_positions := positions.length
    total_transactions := transactions.length
    pnl_7d := calculate_period_pnl transactions unrealized_pnl now 7
    pnl_30d := calculate_period_pnl transactions unrealized_pnl now 30
    pnl_1y := calculate_period_pnl transactions unrealized_pnl now 365
    pnl_all :=
      { total_pnl := total_pnl
        total_pnl_percentage := total_pnl_percentage
        realized_pnl := realized_pnl
        unrealized_pnl := unrealized_pnl } }

/-! ## The cost-basis invariant -/

/-- The specification's Position invariant
`total_invested == quantity * average_cost`, read at an optional position
(`none`, the absence of a row, satisfies it vacuously). -/
def invariantHolds : Option Position → Prop
  | none => True
  | some p => p.total_invested = p.quantity * p.average_buy_price

instance : (op : Option Position) → Decidable (invariantHolds op)
  | none => Decidable.isTrue trivial
  | some p =>
    inferInstanceAs (Decidable (p.total_invested = p.quantity * p.average_buy_price))

/-- Induction invariant for the engine: positive quantity together with the
cost-basis equation. -/
def posGood : Option Position → Prop
  | none => True
  | some p => 0 < p.quantity ∧ p.total_invested = p.quantity * p.average_buy_price

/-- One-step side condition: a BUY that creates a new Position (no position
row exists) carries no fee. -/
def createFeeOk (position : Option Position) (t : Transaction) : Bool :=
  decide (t.transaction_type = TransactionType.buy → position = none → t.fee = 0)

/-- Every BUY along the trajectory started at `position` that creates a new
Position carries no fee. -/
def goodSeq : Option Position → List Transaction → Bool
  | _, [] => true
  | position, t :: ts => createFeeOk position t && goodSeq (posStep position t) ts

theorem posGood_step (position : Option Position) (t : Transaction)
    (hw : wellFormed t) (hg : posGood position)
    (hc : createFeeOk position t = true) :
    posGood (posStep position t) := by
  obtain ⟨hq, hp, hf, hta⟩ := hw
  have hc2 := of_decide_eq_true hc
  cases htt : t.transaction_type with
  | buy =>
    cases position with
    | none =>
      have hfee : t.fee = 0 := hc2 htt rfl
      simp only [posStep, applyTx, htt, posGood]
      exact ⟨hq, by rw [hta, hfee, add_zero, mul_comm]⟩
    | some p =>
      obtain ⟨hpq, hpe⟩ := hg
      have hqq : (0 : ℚ) < p.quantity + t.quantity := add_pos hpq hq
      simp only [posStep, applyTx, htt, posGood]
      refine ⟨hqq, ?_⟩
      rw [mul_div_cancel₀ _ (ne_of_gt hqq)]
  | sell =>
    cases position with
    | none => simp [posStep, applyTx, htt, posGood]
    | some p =>
      obtain ⟨hpq, hpe⟩ := hg
      simp only [posStep, applyTx, htt]
      rcases le_or_lt (p.quantity - t.quantity) 0 with h | h
      · rw [if_pos h]
        exact trivial
      · rw [if_neg (not_le.mpr h)]
        refine ⟨h, ?_⟩
        rw [hpe]
        ring

theorem posGood_foldl (txs : List Transaction) :
    ∀ position, (∀ t ∈ txs, wellFormed t) → posGood position →
      goodSeq position txs = true → posGood (txs.foldl posStep position) := by
  induction txs with
  | nil => exact fun position _ hg _ => hg
  | cons t ts ih =>
    intro position hw hg hgs
    simp only [goodSeq, Bool.and_eq_true] at hgs
    exact ih (posStep position t)
      (fun x hx => hw x (List.mem_cons_of_mem _ hx))
      (posGood_step position t (hw t (List.mem_cons_self t ts)) hg hgs.1) hgs.2

theorem goodSeq_append_left : ∀ (l₁ : List Transaction) (position : Option Position)
    (l₂ : List Transaction),
    goodSeq position (l₁ ++ l₂) = true → goodSeq position l₁ = true := by
  intro l₁
  induction l₁ with
  | nil => exact fun _ _ _ => rfl
  | cons t ts ih =>
    intro position l₂ h
    simp only [List.cons_append, goodSeq, Bool.and_eq_true] at h ⊢
    exact ⟨h.1, ih (posStep position t) l₂ h.2⟩

theorem invariantHolds_of_posGood (op : Option Position) (h : posGood op) :
    invariantHolds op := by
  cases op with
  | none => exact trivial
  | some p => exact h.2

/-- The transaction exhibiting the failure of C1 as stated: a BUY that
creates a Position and carries a positive fee. -/
def txC1 : Transaction :=
  ⟨1, 1, 1, TransactionType.buy, 2, 50, 7, 107, 0, 1⟩

/-- C1 counterexample: after the BUY that creates the Position with
fee = 7 > 0, the code stores `total_invested = 107` but
`quantity * average_buy_price = 100`, so the invariant fails by exactly
the fee — not a floating-point rounding discrepancy. -/
theorem c1_invariant_counterexample :
    wellFormed txC1 ∧ (0 : ℚ) ≤ txC1.fee ∧
      applySeq [txC1] = some ⟨2, 50, 107, 0, 0, 0, 0⟩ ∧
      ¬ invariantHolds (applySeq [txC1]) ∧
      (107 : ℚ) - 2 * 50 = txC1.fee := by with_unfolding_all decide

/-- C1 (amended): the invariant `total_invested = quantity *
average_buy_price` holds after every incremental apply and after a full
recompute, provided every BUY that is applied while no Position exists
carries zero fee (a Position-creating BUY with fee `f > 0` instead leaves
`total_invested` exceeding `quantity * average_buy_price` by exactly `f`). -/
theorem c1_invariant_preserved (txs : List Transaction)
    (hw : ∀ t ∈ txs, wellFormed t)
    (h : goodSeq none txs = true)
    (hs : goodSeq none (sortByDate txs) = true) :
    (∀ l₁ l₂, txs = l₁ ++ l₂ → invariantHolds (applySeq l₁)) ∧
      invariantHolds (applySeq (sortByDate txs)) := by
  constructor
  · intro l₁ l₂ hsplit
    refine invariantHolds_of_posGood _ (posGood_foldl l₁ none ?_ trivial ?_)
    · intro x hx
      exact hw x (hsplit ▸ List.mem_append_left l₂ hx)
    · exact goodSeq_append_left l₁ none l₂ (hsplit ▸ h)
  · refine invariantHolds_of_posGood _ (posGood_foldl _ none ?_ trivial hs)
    intro x hx
    exact hw x ((List.mem_insertionSort dateLe).mp hx)

/-- Transaction list used to witness the amended C1 theorem. -/
def txsW1 : List Transaction :=
  [⟨1, 1, 1, TransactionType.buy, 2, 100, 0, 200, 0, 1⟩,
   ⟨2, 1, 1, TransactionType.buy, 1, 130, 5, 135, 0, 2⟩,
   ⟨3, 1, 1, TransactionType.sell, 1, 150, 0, 150, 0, 3⟩]

theorem c1_invariant_preserved_witness :
    (∀ t ∈ txsW1, wellFormed t) ∧ goodSeq none txsW1 = true ∧
      goodSeq none (sortByDate txsW1) = true ∧
      invariantHolds (applySeq (sortByDate txsW1)) :=
  ⟨by with_unfolding_all decide, by with_unfolding_all decide, by with_unfolding_all decide,
    (c1_invariant_preserved txsW1 (by with_unfolding_all decide) (by with_unfolding_all decide) (by with_unfolding_all decide)).2⟩

/-- The transaction exhibiting the failure of C2 as stated: a creating BUY
with a positive fee. -/
def txC2 : Transaction :=
  ⟨1, 1, 1, TransactionType.buy, 1, 100, 10, 110, 0, 1⟩

/-- C2 counterexample: the BUY creating a Position with quantity 1, unit
price 100 and fee 10 stores `average_buy_price = 100` (the unit price),
while the claimed value `total_invested / quantity` is 110: the fee is not
folded into the average cost of a newly created Position. -/
theorem c2_create_counterexample :
    wellFormed txC2 ∧ txC2.transaction_type = TransactionType.buy ∧
      posStep none txC2 = some ⟨1, 100, 110, 0, 0, 0, 0⟩ ∧
      ¬ ((⟨1, 100, 110, 0, 0, 0, 0⟩ : Position).average_buy_price =
          (⟨1, 100, 110, 0, 0, 0, 0⟩ : Position).total_invested /
            (⟨1, 100, 110, 0, 0, 0, 0⟩ : Position).quantity) := by with_unfolding_all decide

/-- C2 (amended): a BUY applied when no Position exists creates one with
`quantity = transaction.quantity`, `total_invested = transaction.total_amount`
and `average_buy_price = transaction.price` (the raw unit price).  The
equation `average_buy_price = total_invested / quantity` — the fee folded
into the cost basis — holds exactly when the fee is zero, and fails for
every positive fee. -/
theorem c2_create_position (t : Transaction) (hw : wellFormed t)
    (ht : t.transaction_type = TransactionType.buy) :
    applyTx none t = (some ⟨t.quantity, t.price, t.total_amount, 0, 0, 0, 0⟩, t) ∧
      (t.fee = 0 → t.price = t.total_amount / t.quantity) ∧
      (0 < t.fee → t.price ≠ t.total_amount / t.quantity) := by
  obtain ⟨hq, hp, hf, hta⟩ := hw
  have hq0 : t.quantity ≠ 0 := ne_of_gt hq
  have hdiv : t.total_amount / t.quantity = t.price + t.fee / t.quantity := by
    rw [hta, add_div, mul_div_cancel_left₀ _ hq0]
  refine ⟨by simp [applyTx, ht], ?_, ?_⟩
  · intro h0
    rw [hdiv, h0, zero_div, add_zero]
  · intro hfpos heq
    rw [hdiv] at heq
    have : (0 : ℚ) < t.fee / t.quantity := div_pos hfpos hq
    linarith

/-- Fee-free creating BUY used to witness the amended C2 theorem. -/
def txW2 : Transaction :=
  ⟨1, 1, 1, TransactionType.buy, 2, 100, 0, 200, 0, 1⟩

theorem c2_create_position_witness :
    wellFormed txW2 ∧ txW2.transaction_type = TransactionType.buy ∧
      applyTx none txW2 = (some ⟨2, 100, 200, 0, 0, 0, 0⟩, txW2) ∧
      txW2.price = txW2.total_amount / txW2.quantity :=
  ⟨by with_unfolding_all decide, rfl, (c2_create_position txW2 (by with_unfolding_all decide) rfl).1,
    (c2_create_position txW2 (by with_unfolding_all decide) rfl).2.1 rfl⟩

/-! ## SELL and BUY branch behaviour -/

/-- C4: a SELL applied to an existing Position writes
`realized_pnl = (price - average_buy_price) * quantity` on the transaction —
with no fee subtracted — and mutates the Position by
`quantity -= transaction.quantity` and
`total_invested -= average_buy_price * transaction.quantity`, leaving
`average_buy_price` unchanged (the row is deleted instead when the new
quantity is not positive). -/
theorem c4_sell_branch (p : Position) (t : Transaction)
    (ht : t.transaction_type = TransactionType.sell) :
    (applyTx (some p) t).2 =
        { t with realized_pnl := (t.price - p.average_buy_price) * t.quantity } ∧
      (applyTx (some p) t).1 =
        (if p.quantity - t.quantity ≤ 0 then none
         else some { p with
                       quantity := p.quantity - t.quantity
                       total_invested :=
                         p.total_invested - p.average_buy_price * t.quantity }) := by
  constructor
  · simp only [applyTx, ht]
    split <;> rfl
  · simp only [applyTx, ht]
    split <;> simp_all

/-- The Position of the specification's realized-PnL example. -/
def posC4 : Position := ⟨10, 100, 1000, 0, 0, 0, 0⟩

/-- The SELL of the specification's realized-PnL example. -/
def txC4 : Transaction := ⟨1, 1, 1, TransactionType.sell, 4, 150, 0, 600, 0, 1⟩

theorem c4_sell_branch_witness :
    txC4.transaction_type = TransactionType.sell ∧
      (applyTx (some posC4) txC4).2.realized_pnl = 200 ∧
      (applyTx (some posC4) txC4).1 = some ⟨6, 100, 600, 0, 0, 0, 0⟩ := by
  have h := c4_sell_branch posC4 txC4 rfl
  refine ⟨rfl, ?_, ?_⟩
  · rw [h.1]
    with_unfolding_all decide
  · rw [h.2]
    with_unfolding_all decide

/-- C5: a BUY applied to an existing Position performs the weighted-average
cost-basis update: `new_quantity = quantity + transaction.quantity`,
`new_invested = total_invested + transaction.total_amount`, and
`average_buy_price = new_invested / new_quantity`; the transaction row is
left unchanged. -/
theorem c5_buy_existing (p : Position) (t : Transaction)
    (ht : t.transaction_type = TransactionType.buy) :
    applyTx (some p) t =
      (some { p with
                quantity := p.quantity + t.quantity
                total_invested := p.total_invested + t.total_amount
                average_buy_price :=
                  (p.total_invested + t.total_amount) / (p.quantity + t.quantity) },
        t) := by
  simp [applyTx, ht]

/-- First BUY of the specification's weighted-average example. -/
def txC5a : Transaction := ⟨1, 1, 1, TransactionType.buy, 2, 100, 0, 200, 0, 1⟩

/-- Second BUY of the specification's weighted-average example. -/
def txC5b : Transaction := ⟨2, 1, 1, TransactionType.buy, 2, 200, 0, 400, 0, 2⟩

/-- Position after the first BUY of the weighted-average example. -/
def posC5 : Position := ⟨2, 100, 200, 0, 0, 0, 0⟩

theorem c5_buy_existing_witness :
    txC5b.transaction_type = TransactionType.buy ∧
      applySeq [txC5a] = some posC5 ∧ posC5.average_buy_price = 100 ∧
      applySeq [txC5a, txC5b] = some ⟨4, 150, 600, 0, 0, 0, 0⟩ := by
  have h := c5_buy_existing posC5 txC5b rfl
  refine ⟨rfl, by with_unfolding_all decide, rfl, ?_⟩
  show posStep (posStep none txC5a) txC5b = _
  have h1 : posStep none txC5a = some posC5 := by with_unfolding_all decide
  rw [h1]
  show (applyTx (some posC5) txC5b).1 = _
  rw [h]
  with_unfolding_all decide

/-- C6: a SELL of at least the whole held quantity deletes the Position
row, and across every apply step a surviving Position has positive
quantity (given the boundary validation `transaction.quantity > 0` and a
positive starting quantity). -/
theorem c6_zero_quantity_deletion :
    (∀ (p : Position) (t : Transaction),
        t.transaction_type = TransactionType.sell → p.quantity ≤ t.quantity →
          posStep (some p) t = none) ∧
      (∀ (position : Option Position) (t : Transaction) (q : Position),
        0 < t.quantity → (∀ p, position = some p → 0 < p.quantity) →
          posStep position t = some q → 0 < q.quantity) := by
  constructor
  · intro p t ht hle
    simp only [posStep, applyTx, ht]
    rw [if_pos (sub_nonpos.mpr hle)]
  · intro position t q htq hpos hstep
    cases htt : t.transaction_type with
    | buy =>
      cases position with
      | none =>
        simp only [posStep, applyTx, htt, Option.some.injEq] at hstep
        rw [← hstep]
        exact htq
      | some p =>
        simp only [posStep, applyTx, htt, Option.some.injEq] at hstep
        rw [← hstep]
        exact add_pos (hpos p rfl) htq
    | sell =>
      cases position with
      | none => simp [posStep, applyTx, htt] at hstep
      | some p =>
        simp only [posStep, applyTx, htt] at hstep
        rcases le_or_lt (p.quantity - t.quantity) 0 with h | h
        · rw [if_pos h] at hstep
          exact absurd hstep (by simp)
        · rw [if_neg (not_le.mpr h)] at hstep
          simp only [Option.some.injEq] at hstep
          rw [← hstep]
          exact h

/-- Position used to witness the deletion branch of C6. -/
def posC6 : Position := ⟨5, 100, 500, 0, 0, 0, 0⟩

/-- SELL of the entire held quantity, witnessing the deletion branch of C6. -/
def txC6 : Transaction := ⟨9, 1, 1, TransactionType.sell, 5, 120, 0, 600, 0, 9⟩

theorem c6_zero_quantity_deletion_witness :
    (txC6.transaction_type = TransactionType.sell ∧ posC6.quantity ≤ txC6.quantity ∧
      posStep (some posC6) txC6 = none) ∧
      ((0 : ℚ) < txC5a.quantity ∧ posStep none txC5a = some posC5 ∧ 0 < posC5.quantity) :=
  ⟨⟨rfl, by with_unfolding_all decide,
      c6_zero_quantity_deletion.1 posC6 txC6 rfl (by with_unfolding_all decide)⟩,
    ⟨by with_unfolding_all decide, by with_unfolding_all decide,
      c6_zero_quantity_deletion.2 none txC5a posC5 (by with_unfolding_all decide)
        (fun p h => nomatch h) (by with_unfolding_all decide)⟩⟩

/-! ## Recompute agrees with incremental application -/

theorem find?_filter_not_posKey (ps : List (Nat × Nat × Position)) (u a : Nat) :
    (ps.filter (fun x => !(posKey u a x))).find? (posKey u a) = none := by
  rw [List.find?_eq_none]
  intro x hx
  rw [List.mem_filter] at hx
  simpa using hx.2

theorem find?_setPositions (ps : List (Nat × Nat × Position)) (u a : Nat)
    (op : Option Position) :
    ((setPositions ps u a op).find? (posKey u a)).map (fun x => x.2.2) = op := by
  cases op with
  | none =>
    simp [setPositions, List.find?_append, find?_filter_not_posKey]
  | some p =>
    simp only [setPositions]
    rw [List.find?_append, find?_filter_not_posKey, Option.none_or,
      List.find?_cons_of_pos _ (by simp [posKey])]
    rfl

theorem get_position_update (db : DB) (t : Transaction) :
    get_position_by_asset (update_position_after_transaction db t) t.user_id t.asset_id
      = posStep (get_position_by_asset db t.user_id t.asset_id) t :=
  find?_setPositions db.positions t.user_id t.asset_id _

theorem get_position_foldl (txs : List Transaction) :
    ∀ (db : DB) (u a : Nat), (∀ t ∈ txs, t.user_id = u ∧ t.asset_id = a) →
      get_position_by_asset (txs.foldl update_position_after_transaction db) u a
        = txs.foldl posStep (get_position_by_asset db u a) := by
  induction txs with
  | nil => exact fun _ _ _ _ => rfl
  | cons t ts ih =>
    intro db u a h
    obtain ⟨h1, h2⟩ := h t (List.mem_cons_self t ts)
    subst h1
    subst h2
    simp only [List.foldl_cons]
    rw [ih (update_position_after_transaction db t) t.user_id t.asset_id
        (fun x hx => h x (List.mem_cons_of_mem _ hx)),
      get_position_update]

theorem get_position_deleted (db : DB) (u a : Nat) :
    get_position_by_asset
        { db with positions := db.positions.filter (fun x => !(posKey u a x)) } u a
      = none := by
  simp [get_position_by_asset, find?_filter_not_posKey]

theorem get_position_recalculate (db : DB) (u a : Nat) :
    get_position_by_asset (recalculate_position db u a) u a
      = applySeq (sortByDate (db.transactions.filter
          (fun t => decide (t.user_id = u ∧ t.asset_id = a)))) := by
  rw [recalculate_position, get_position_foldl, get_position_deleted]
  · rfl
  · intro t ht
    have hmem := (List.mem_insertionSort dateLe).mp ht
    rw [List.mem_filter] at hmem
    exact of_decide_eq_true hmem.2

/-- C3: for a (user, asset) pair whose stored transaction history is already
in ascending `transaction_date` order, `recalculate_position` (delete the
Position row, then replay through the apply step in ascending date order)
leaves exactly the Position obtained by applying that history incrementally,
in order, starting from no Position — including the case where no Position
survives. -/
theorem c3_replay_equivalence (db : DB) (u a : Nat)
    (hsorted : List.Sorted dateLe (db.transactions.filter
      (fun t => decide (t.user_id = u ∧ t.asset_id = a)))) :
    get_position_by_asset (recalculate_position db u a) u a
      = applySeq (db.transactions.filter
          (fun t => decide (t.user_id = u ∧ t.asset_id = a))) := by
  rw [get_position_recalculate, sortByDate, List.Sorted.insertionSort_eq hsorted]

/-- Store used to witness the replay-equivalence theorem: a BUY and a SELL
for user 1 and asset 1 (dates ascending), a transaction of another user
interleaved, and a stale position row. -/
def dbC3 : DB :=
  { transactions :=
      [⟨1, 1, 1, TransactionType.buy, 3, 100, 0, 300, 0, 1⟩,
       ⟨2, 2, 1, TransactionType.buy, 5, 80, 0, 400, 0, 2⟩,
       ⟨3, 1, 1, TransactionType.sell, 1, 120, 0, 120, 20, 3⟩],
    positions := [(1, 1, ⟨3, 100, 300, 0, 0, 0, 0⟩)] }

theorem c3_replay_equivalence_witness :
    List.Sorted dateLe (dbC3.transactions.filter
        (fun t => decide (t.user_id = 1 ∧ t.asset_id = 1))) ∧
      get_position_by_asset (recalculate_position dbC3 1 1) 1 1
        = applySeq (dbC3.transactions.filter
            (fun t => decide (t.user_id = 1 ∧ t.asset_id = 1))) ∧
      applySeq (dbC3.transactions.filter
          (fun t => decide (t.user_id = 1 ∧ t.asset_id = 1)))
        = some ⟨2, 100, 200, 0, 0, 0, 0⟩ :=
  ⟨by with_unfolding_all decide,
    c3_replay_equivalence dbC3 1 1 (by with_unfolding_all decide),
    by with_unfolding_all decide⟩

/-! ## Deleting a transaction -/

theorem applyTx_id (position : Option Position) (t : Transaction) :
    (applyTx position t).2.id = t.id := by
  cases htt : t.transaction_type with
  | buy => cases position <;> simp [applyTx, htt]
  | sell =>
    cases position with
    | none => simp [applyTx, htt]
    | some p =>
      simp only [applyTx, htt]
      split <;> rfl

theorem transactions_ids_update (db : DB) (t : Transaction) :
    ((update_position_after_transaction db t).transactions).map Transaction.id
      = db.transactions.map Transaction.id := by
  simp only [update_position_after_transaction, List.map_map]
  refine List.map_congr_left ?_
  intro t0 _
  by_cases h : t0.id = t.id
  · simp [h, Function.comp, applyTx_id]
  · simp [h, Function.comp]

theorem transactions_ids_foldl (txs : List Transaction) :
    ∀ db : DB,
      ((txs.foldl update_position_after_transaction db).transactions).map Transaction.id
        = db.transactions.map Transaction.id := by
  induction txs with
  | nil => exact fun _ => rfl
  | cons t ts ih =>
    intro db
    rw [List.foldl_cons, ih, transactions_ids_update]

theorem transactions_ids_recalculate (db : DB) (u a : Nat) :
    ((recalculate_position db u a).transactions).map Transaction.id
      = db.transactions.map Transaction.id := by
  rw [recalculate_position, transactions_ids_foldl]

/-- C9: `delete_transaction` returns `true` exactly when a transaction with
the given id owned by the given user exists.  When it returns `false` the
store is left unchanged.  When it returns `true`, no transaction with the
deleted id remains, and the Position row of the deleted transaction's asset
equals the full recompute of the remaining (user, asset) history (replayed
in ascending date order from no Position). -/
theorem c9_delete_transaction (db : DB) (tid uid : Nat) :
    ((delete_transaction db tid uid).1 = true ↔
        ∃ t ∈ db.transactions, t.id = tid ∧ t.user_id = uid) ∧
      ((delete_transaction db tid uid).1 = false →
        (delete_transaction db tid uid).2 = db) ∧
      (∀ t, get_transaction db tid uid = some t →
        (∀ t2 ∈ (delete_transaction db tid uid).2.transactions, t2.id ≠ tid) ∧
          get_position_by_asset (delete_transaction db tid uid).2 uid t.asset_id
            = applySeq (sortByDate
                ((db.transactions.filter (fun t2 => !(decide (t2.id = tid)))).filter
                  (fun t2 => decide (t2.user_id = uid ∧ t2.asset_id = t.asset_id))))) := by
  refine ⟨?_, ?_, ?_⟩
  · constructor
    · intro h
      rw [delete_transaction] at h
      cases hf : get_transaction db tid uid with
      | none => rw [hf] at h; exact absurd h (by simp)
      | some t =>
        have hf2 := hf
        rw [get_transaction] at hf2
        have hmem := List.mem_of_find?_eq_some hf2
        have hpb := @List.find?_some Transaction
          (fun t2 => decide (t2.id = tid ∧ t2.user_id = uid)) t db.transactions hf2
        simp only [decide_eq_true_eq] at hpb
        exact ⟨t, hmem, hpb⟩
    · intro ⟨t, hmem, hp⟩
      rw [delete_transaction]
      cases hf : get_transaction db tid uid with
      | none =>
        rw [get_transaction, List.find?_eq_none] at hf
        exact absurd (decide_eq_true hp) (by simpa using hf t hmem)
      | some t2 => rfl
  · intro h
    rw [delete_transaction] at h ⊢
    cases hf : get_transaction db tid uid with
    | none => rfl
    | some t => rw [hf] at h; exact absurd h (by simp)
  · intro t hf
    have hf2 := hf
    rw [get_transaction] at hf2
    have hpb := @List.find?_some Transaction
      (fun t2 => decide (t2.id = tid ∧ t2.user_id = uid)) t db.transactions hf2
    simp only [decide_eq_true_eq] at hpb
    have hid : t.id = tid := hpb.1
    rw [delete_transaction, hf]
    constructor
    · intro t2 ht2 h2id
      have hids : ((recalculate_position
            { db with transactions :=
                db.transactions.filter (fun t3 => !(decide (t3.id = t.id))) }
            uid t.asset_id).transactions).map Transaction.id
          = (db.transactions.filter (fun t3 => !(decide (t3.id = t.id)))).map
              Transaction.id := transactions_ids_recalculate _ uid t.asset_id
      have hmem2 : t2.id ∈ ((recalculate_position
            { db with transactions :=
                db.transactions.filter (fun t3 => !(decide (t3.id = t.id))) }
            uid t.asset_id).transactions).map Transaction.id :=
        List.mem_map_of_mem Transaction.id ht2
      rw [hids] at hmem2
      obtain ⟨t3, ht3, ht3id⟩ := List.mem_map.mp hmem2
      rw [List.mem_filter] at ht3
      have : ¬ t3.id = t.id := by simpa using ht3.2
      exact this (by rw [ht3id, h2id, hid])
    · rw [get_position_recalculate]
      simp only [hid]

/-- Store used to witness the delete-transaction theorem: user 1 holds a
position in asset 1 built from one BUY, plus an unrelated transaction of
user 2. -/
def dbC9 : DB :=
  { transactions :=
      [⟨1, 1, 1, TransactionType.buy, 2, 100, 0, 200, 0, 1⟩,
       ⟨2, 2, 1, TransactionType.buy, 1, 50, 0, 50, 0, 2⟩],
    positions := [(1, 1, ⟨2, 100, 200, 0, 0, 0, 0⟩), (2, 1, ⟨1, 50, 50, 0, 0, 0, 0⟩)] }

/-- The transaction row deleted in the C9 witness. -/
def txC9 : Transaction := ⟨1, 1, 1, TransactionType.buy, 2, 100, 0, 200, 0, 1⟩

theorem c9_delete_transaction_witness :
    get_transaction dbC9 1 1 = some txC9 ∧
      (∀ t2 ∈ (delete_transaction dbC9 1 1).2.transactions, t2.id ≠ 1) ∧
      get_position_by_asset (delete_transaction dbC9 1 1).2 1 txC9.asset_id
        = applySeq (sortByDate
            ((dbC9.transactions.filter (fun t2 => !(decide (t2.id = 1)))).filter
              (fun t2 => decide (t2.user_id = 1 ∧ t2.asset_id = txC9.asset_id)))) :=
  ⟨by with_unfolding_all decide,
    ((c9_delete_transaction dbC9 1 1).2.2 txC9 (by with_unfolding_all decide)).1,
    ((c9_delete_transaction dbC9 1 1).2.2 txC9 (by with_unfolding_all decide)).2⟩

/-! ## Period windows and summary guards -/

/-- C7: a transaction belongs to the `d`-day window exactly when its
`transaction_date` is at least `now - d`; each window's total PnL is that
window's realized PnL plus the single current unrealized-PnL snapshot
(the sum of the positions' stored `unrealized_pnl`), reused identically by
the 7d, 30d, 1y and all-time windows; and a transaction dated 10 days
before `now` falls in the 30d and 1y windows (and trivially the all-time
one) but not the 7d window. -/
theorem c7_period_windowing (positions : List Position)
    (txs : List Transaction) (now : ℚ) :
    (∀ d t, t ∈ periodTransactions txs now d ↔
        t ∈ txs ∧ now - d ≤ t.transaction_date) ∧
      (get_portfolio_summary positions txs now).pnl_7d.total_pnl
        = sumRealized (periodTransactions txs now 7)
            + (positions.map Position.unrealized_pnl).sum ∧
      (get_portfolio_summary positions txs now).pnl_30d.total_pnl
        = sumRealized (periodTransactions txs now 30)
            + (positions.map Position.unrealized_pnl).sum ∧
      (get_portfolio_summary positions txs now).pnl_1y.total_pnl
        = sumRealized (periodTransactions txs now 365)
            + (positions.map Position.unrealized_pnl).sum ∧
      (get_portfolio_summary positions txs now).pnl_all.total_pnl
        = sumRealized txs + (positions.map Position.unrealized_pnl).sum ∧
      (∀ t ∈ txs, t.transaction_date = now - 10 →
        t ∈ periodTransactions txs now 30 ∧ t ∈ periodTransactions txs now 365 ∧
          t ∉ periodTransactions txs now 7) := by
  have hmem : ∀ (d : ℚ) (t : Transaction), t ∈ periodTransactions txs now d ↔
      t ∈ txs ∧ now - d ≤ t.transaction_date := by
    intro d t
    simp [periodTransactions, List.mem_filter]
  refine ⟨hmem, rfl, rfl, rfl, rfl, ?_⟩
  intro t ht hd
  refine ⟨(hmem 30 t).mpr ⟨ht, by rw [hd]; linarith⟩,
    (hmem 365 t).mpr ⟨ht, by rw [hd]; linarith⟩, ?_⟩
  intro hin
  have := ((hmem 7 t).mp hin).2
  rw [hd] at this
  linarith

/-- Transaction dated 10 days before the witness reference time `now = 0`. -/
def txC7 : Transaction := ⟨1, 1, 1, TransactionType.sell, 1, 100, 0, 100, 40, -10⟩

theorem c7_period_windowing_witness :
    txC7 ∈ [txC7] ∧ txC7.transaction_date = (0 : ℚ) - 10 ∧
      txC7 ∈ periodTransactions [txC7] 0 30 ∧
      txC7 ∈ periodTransactions [txC7] 0 365 ∧
      txC7 ∉ periodTransactions [txC7] 0 7 := by
  have h := (c7_period_windowing [] [txC7] 0).2.2.2.2.2 txC7
    (List.mem_singleton_self txC7) (by with_unfolding_all decide)
  exact ⟨List.mem_singleton_self txC7, by with_unfolding_all decide, h.1, h.2.1, h.2.2⟩

/-- C8: a summary over no positions and no transactions is total —
every monetary, PnL and percentage field is 0 — and the percentage
divisions are guarded: the total percentage is
`total_pnl / total_invested * 100` when `total_invested > 0` and 0
otherwise, and each period percentage is
`period_total_pnl / period_invested * 100` when `period_invested > 0`
and 0 otherwise. -/
theorem c8_summary_guards (positions : List Position)
    (txs : List Transaction) (now : ℚ) :
    (positions = [] → txs = [] →
      get_portfolio_summary positions txs now =
        { total_invested := 0, current_value := 0, total_pnl := 0,
          total_pnl_percentage := 0, total_positions := 0, total_transactions := 0,
          pnl_7d := ⟨0, 0, 0, 0⟩, pnl_30d := ⟨0, 0, 0, 0⟩,
          pnl_1y := ⟨0, 0, 0, 0⟩, pnl_all := ⟨0, 0, 0, 0⟩ }) ∧
      (0 < (positions.map Position.total_invested).sum →
        (get_portfolio_summary positions txs now).total_pnl_percentage
          = (get_portfolio_summary positions txs now).total_pnl
              / (positions.map Position.total_invested).sum * 100) ∧
      ((positions.map Position.total_invested).sum ≤ 0 →
        (get_portfolio_summary positions txs now).total_pnl_percentage = 0) ∧
      (∀ (u d : ℚ), 0 < sumInvestedBuys (periodTransactions txs now d) →
        (calculate_period_pnl txs u now d).total_pnl_percentage
          = (calculate_period_pnl txs u now d).total_pnl
              / sumInvestedBuys (periodTransactions txs now d) * 100) ∧
      (∀ (u d : ℚ), sumInvestedBuys (periodTransactions txs now d) ≤ 0 →
        (calculate_period_pnl txs u now d).total_pnl_percentage = 0) := by
  refine ⟨?_, ?_, ?_, ?_, ?_⟩
  · intro h1 h2
    subst h1
    subst h2
    with_unfolding_all rfl
  · intro h
    show (if 0 < (positions.map Position.total_invested).sum then _ else 0) = _
    rw [if_pos h]
    rfl
  · intro h
    show (if 0 < (positions.map Position.total_invested).sum then _ else 0) = 0
    rw [if_neg (not_lt.mpr h)]
  · intro u d h
    show (if 0 < sumInvestedBuys (periodTransactions txs now d) then _ else 0) = _
    rw [if_pos h]
    rfl
  · intro u d h
    show (if 0 < sumInvestedBuys (periodTransactions txs now d) then _ else 0) = 0
    rw [if_neg (not_lt.mpr h)]

theorem c8_summary_guards_witness :
    get_portfolio_summary [] [] 0 =
        { total_invested := 0, current_value := 0, total_pnl := 0,
          total_pnl_percentage := 0, total_positions := 0, total_transactions := 0,
          pnl_7d := ⟨0, 0, 0, 0⟩, pnl_30d := ⟨0, 0, 0, 0⟩,
          pnl_1y := ⟨0, 0, 0, 0⟩, pnl_all := ⟨0, 0, 0, 0⟩ } ∧
      (([] : List Position).map Position.total_invested).sum ≤ 0 ∧
      (get_portfolio_summary [] [] 0).total_pnl_percentage = 0 :=
  ⟨(c8_summary_guards [] [] 0).1 rfl rfl, by with_unfolding_all decide,
    (c8_summary_guards [] [] 0).2.2.1 (by with_unfolding_all decide)⟩

/-! ## Recompute rewrites stored realized PnL -/

/-- History built live through `create_transaction`: user 1 buys one unit
of asset 1 at 100, buys another at 200 (average cost 150), then sells one
unit at 300 — at application time the SELL records a realized PnL of
`(300 - 150) * 1 = 150`. -/
def dbC10 : DB :=
  create_transaction
    (create_transaction
      (create_transaction ⟨[], []⟩ 1 1 1 TransactionType.buy 1 100 0 1)
      1 2 1 TransactionType.buy 1 200 0 2)
    1 3 1 TransactionType.sell 1 300 0 3

/-- C10: `recalculate_position` does not only rebuild the Position row —
replaying the history re-runs the SELL branch, which overwrites the stored
`realized_pnl` of the remaining SELL rows.  Concretely: the SELL recorded
`realized_pnl = 150` when applied live; after `delete_transaction` removes
the second BUY, the replay recomputes the SELL against the edited history
(average cost 100), so its stored `realized_pnl` becomes
`(300 - 100) * 1 = 200`, and the replayed oversold Position is deleted —
the transaction store is mutated as a side effect of the recompute. -/
theorem c10_recompute_mutates_realized :
    ((get_transaction dbC10 3 1).map Transaction.realized_pnl = some 150) ∧
      (delete_transaction dbC10 2 1).1 = true ∧
      (((delete_transaction dbC10 2 1).2.transactions.find?
          (fun t => decide (t.id = 3))).map Transaction.realized_pnl = some 200) ∧
      get_position_by_asset (delete_transaction dbC10 2 1).2 1 1 = none := by
  with_unfolding_all decide

end PortfolioTracker
